/-
Verification of the natural-language specification of `enn/networks/hypermodels.py`
against a shallow Lean embedding of that module.

Modelling conventions:
* JAX arrays are `Tensor`: a row-major flat list of reals together with a shape.
* A haiku parameter tree (`Mapping[str, Mapping[str, Array]]`) is `Params`:
  an association list of module names, each holding an association list of
  parameter names to tensors, in traversal order.
* `hk.get_parameter` always returns an array of exactly the requested shape,
  with values drawn from an initializer; we model the drawn values as
  explicit value-oracle functions threaded through a parameter store.
* Fallible operations (`jnp.reshape` size mismatches, `chex` assertions,
  `raise ValueError`) are modelled with `Option` / `Except`.
* PRNG keys are modelled as naturals; `jax.random.PRNGKey(s)` is `s`.
-/
import Mathlib

namespace Hyper

/-- A JAX array: shape plus row-major flat data. -/
structure Tensor where
  shape : List Nat
  data : List ℝ

/-- Nested haiku-style tree: module name to (parameter name to leaf). -/
abbrev PTree (α : Type) := List (String × List (String × α))

/-- A haiku parameter tree of arrays. -/
abbrev Params := PTree Tensor

/-- `jax.tree_map f`: map `f` over the leaves, keeping the structure. -/
def mapT {α β : Type} (f : α → β) (t : PTree α) : PTree β :=
  t.map fun m => (m.1, m.2.map fun l => (l.1, f l.2))

/-- Map over the leaves with access to the module and parameter names
(used for `hk.data_structures.map` and for per-leaf haiku modules). -/
def mapNamedT {α β : Type} (f : String → String → α → β) (t : PTree α) : PTree β :=
  t.map fun m => (m.1, m.2.map fun l => (l.1, f m.1 l.1 l.2))

/-- `jax.tree_leaves`: the leaves in traversal order. -/
def leavesT {α : Type} (t : PTree α) : List α :=
  (t.map fun m => m.2.map Prod.snd).flatten

/-- Dot product of two flat vectors (zips truncate to the shorter). -/
def dot (a b : List ℝ) : ℝ :=
  ((a.zip b).map fun p => p.1 * p.2).sum

/-- Parameters of one `hk.Linear` layer: `w` has one row per input
coordinate (row length = output size), `b` has one entry per output. -/
structure Linear where
  w : List (List ℝ)
  b : List ℝ

/-- `hk.Linear` forward pass: `out = x @ w + b`. The output has exactly
`b.length` coordinates. -/
def Linear.apply (l : Linear) (x : List ℝ) : List ℝ :=
  (List.range l.b.length).map fun j =>
    dot x (l.w.map fun row => row.getD j 0) + l.b.getD j 0

/-- Build the parameters of `hk.Linear output_size` applied to an input of
`inSize` coordinates: `hk.get_parameter` yields `w : [inSize, outSize]` and
`b : [outSize]`, with values from the value oracles. -/
def mkLinear (inSize outSize : Nat) (wv : Nat → Nat → ℝ) (bv : Nat → ℝ) : Linear :=
  { w := (List.range inSize).map fun k => (List.range outSize).map (wv k)
    b := (List.range outSize).map bv }

/-- ReLU activation. -/
def relu (x : ℝ) : ℝ := max x 0

/-- `hk.nets.MLP` on explicit layer parameters: ReLU between layers,
no activation after the last layer. -/
def mlpApply : List Linear → List ℝ → List ℝ
  | [], x => x
  | [l], x => l.apply x
  | l :: l2 :: ls, x => mlpApply (l2 :: ls) ((l.apply x).map relu)

/-- `jnp.reshape flat shape`: succeeds exactly when the element counts agree. -/
def reshape (xs : List ℝ) (shape : List Nat) : Option Tensor :=
  if xs.length = shape.prod then some (Tensor.mk shape xs) else none

/-- Leaf-level part of `jax.tree_multimap jnp.reshape flat_output base_shapes`:
reshape each flat leaf to the matching base leaf's shape. -/
def reshapeLeaves : List (String × Option (List ℝ)) → List (String × Tensor) →
    Option (List (String × Tensor))
  | [], [] => some []
  | (_, o) :: fs, (n, t) :: bs =>
    match o.bind fun xs => reshape xs t.shape with
    | none => none
    | some u =>
      match reshapeLeaves fs bs with
      | none => none
      | some r => some ((n, u) :: r)
  | _, _ => none

/-- `jax.tree_multimap jnp.reshape flat_output base_shapes`: requires the two
trees to have the same structure, and reshapes leafwise. -/
def reshapeAll : PTree (Option (List ℝ)) → Params → Option Params
  | [], [] => some []
  | (_, fs) :: ft, (m, bs) :: bt =>
    match reshapeLeaves fs bs with
    | none => none
    | some ms =>
      match reshapeAll ft bt with
      | none => none
      | some r => some ((m, ms) :: r)
  | _, _ => none

/-- `jnp.split xs (cumsum sizes)[:-1]`: consecutive chunks of the given
sizes, the last chunk taking the whole remainder. -/
def splitSizes {α : Type} (xs : List α) : List Nat → List (List α)
  | [] => [xs]
  | n :: rest =>
    match rest with
    | [] => [xs]
    | _ :: _ => xs.take n :: splitSizes (xs.drop n) rest

/-- Inner level of `jax.tree_unflatten`: distribute a flat list of leaves
over a leaf-name skeleton, threading the remainder. -/
def unflatInner {α β : Type} : List (String × α) → List β →
    List (String × Option β) × List β
  | [], ys => ([], ys)
  | (n, _) :: rest, [] =>
    ((n, none) :: rest.map fun l => (l.1, (none : Option β)), [])
  | (n, _) :: rest, y :: ys =>
    let p := unflatInner rest ys
    ((n, some y) :: p.1, p.2)

/-- `jax.tree_unflatten`: distribute a flat list of leaves over the
skeleton of a tree (missing leaves become `none`). -/
def unflatT {α β : Type} : PTree α → List β → PTree (Option β)
  | [], _ => []
  | (m, ls) :: rest, ys =>
    let p := unflatInner ls ys
    (m, p.1) :: unflatT rest p.2

/-- `jnp.log (1 + jnp.exp w)`, the multiplier appearing in
`DiagonalLinear.__call__`. -/
noncomputable def softplus (x : ℝ) : ℝ := Real.log (1 + Real.exp x)

/-- `DiagonalLinear()` (with bias) applied to a one-dimensional vector:
`out = x * softplus w + b`, with `w`, `b` of the same length as `x`,
their values drawn from the value oracles. -/
noncomputable def diagApplyVec (wv bv : Nat → ℝ) (x : List ℝ) : List ℝ :=
  (List.range x.length).map fun i => x.getD i 0 * softplus (wv i) + bv i

/-- `DiagonalLinear.__call__` on a general tensor. Raises
`ValueError('Input must not be scalar.')` on an empty shape; otherwise
multiplies elementwise (broadcasting over the leading axes) by
`softplus` of the weight vector of length `shape[-1]`, then adds the
bias when `with_bias` is set. -/
noncomputable def diagCall (withBias : Bool) (wv bv : Nat → ℝ) (inputs : Tensor) :
    Except String Tensor :=
  if inputs.shape = [] then Except.error "Input must not be scalar."
  else
    let inputSize := inputs.shape.getLastD 0
    let out1 := (List.range inputs.data.length).map fun i =>
      inputs.data.getD i 0 * softplus (wv (i % inputSize))
    let out := if withBias then
        (List.range out1.length).map fun i => out1.getD i 0 + bv (i % inputSize)
      else out1
    Except.ok (Tensor.mk inputs.shape out)

/-- `hk.transform`-ed base network: `init key dummy` returns its parameter
tree, `apply params x` runs it on generated parameters. -/
structure Transformed where
  init : Nat → Tensor → Params
  apply : Params → Tensor → Tensor

/-- The haiku parameter store of the hypermodel module: the torso MLP's
layers, the per-leaf `hk.Linear` value oracles (keyed by the base leaf's
module and parameter names), and the `DiagonalLinear` value oracles. -/
structure HyperStore where
  torsoLayers : List Linear
  wv : String → String → Nat → Nat → ℝ
  bv : String → String → Nat → ℝ
  dlW : Nat → ℝ
  dlB : Nat → ℝ

/-- `scale_fn`: scale a weight (`name = 'w'`) elementwise by
`1 / sqrt(value.shape[0])`; leave any other parameter unchanged. -/
noncomputable def scale_fn (_moduleName name : String) (value : Tensor) : Tensor :=
  if name = "w" then
    Tensor.mk value.shape (value.data.map fun a => a / Real.sqrt (value.shape.headD 0 : Nat))
  else value

/-- The scaling step of `hyper_fn`: `hk.data_structures.map scale_fn` when
`scale` is set, identity otherwise. -/
noncomputable def hyperScaledParams (scale : Bool) (gp : Params) : Params :=
  if scale then mapNamedT scale_fn gp else gp

/-- The parameter-generation part of `hyper_fn` (everything before the
final `transformed_base.apply`): introspect the base parameters obtained
from `transformed_base.init (PRNGKey 0) dummy_input`, run either the
`DiagonalLinear` path (asserting the index length equals the total base
parameter count, then splitting) or the torso-plus-per-leaf-`hk.Linear`
path, and reshape each flat leaf to the base leaf's shape. -/
noncomputable def hyperGenerated (tb : Transformed) (dummy : Tensor)
    (torso : List ℝ → List ℝ) (diag : Bool) (s : HyperStore)
    (index : List ℝ) : Option Params :=
  let baseParams := tb.init 0 dummy
  let flatSizes := leavesT (mapT (fun t => t.data.length) baseParams)
  if diag then
    if index.length = flatSizes.sum then
      let hyperIndex := diagApplyVec s.dlW s.dlB index
      reshapeAll (unflatT baseParams (splitSizes hyperIndex flatSizes)) baseParams
    else none
  else
    let hyperIndex := torso index
    reshapeAll
      (mapNamedT (fun m n t =>
          some ((mkLinear hyperIndex.length t.data.length (s.wv m n) (s.bv m n)).apply
            hyperIndex))
        baseParams)
      baseParams

/-- `hyper_fn` (with `return_generated_params = False`): generate the
parameters, optionally scale them, and run the base network on them. -/
noncomputable def hyperFn (tb : Transformed) (dummy : Tensor)
    (torso : List ℝ → List ℝ) (diag scale : Bool) (s : HyperStore)
    (inputs : Tensor) (index : List ℝ) : Option Tensor :=
  (hyperGenerated tb dummy torso diag s index).map fun gp =>
    tb.apply (hyperScaledParams scale gp) inputs

/-- The `hyper_torso` chosen by `MLPHypermodel.__init__`: the identity when
`hidden_sizes` is `None`, otherwise an `hk.nets.MLP hidden_sizes` whose
layer parameters live in the store. -/
def mlpHypermodelTorso (hidden : Option (List Nat)) (torsoLayers : List Linear) :
    List ℝ → List ℝ :=
  match hidden with
  | none => fun x => x
  | some _ => fun x => mlpApply torsoLayers x

/-- An `EpistemicNetwork` whose parameters are a `HyperStore`. -/
structure ENNH where
  apply : HyperStore → Tensor → List ℝ → Option Tensor
  init : Nat → Tensor → List ℝ → HyperStore
  indexer : Nat → List ℝ

/-- `MLPHypermodel`: the hypermodel module (non-diagonal) wrapped as an
epistemic network; `init` draws a fresh store from the init oracle. -/
noncomputable def mkMLPHypermodel (tb : Transformed) (dummy : Tensor)
    (indexer : Nat → List ℝ) (hidden : Option (List Nat)) (scale : Bool)
    (initOracle : Nat → HyperStore) : ENNH :=
  { apply := fun s x z =>
      hyperFn tb dummy (mlpHypermodelTorso hidden s.torsoLayers) false scale s x z
    init := fun key _ _ => initOracle key
    indexer := indexer }

/-- Split a flat list into consecutive rows of length `n` (the row-major
view of a tensor whose last axis has size `n`). -/
def chunkRows : List ℝ → Nat → List (List ℝ)
  | [], _ => []
  | _ :: _, 0 => []
  | x :: rest, n + 1 =>
    (x :: rest).take (n + 1) :: chunkRows ((x :: rest).drop (n + 1)) (n + 1)
termination_by xs _ => xs.length
decreasing_by
  simp only [List.drop_succ_cons, List.length_drop, List.length_cons]
  omega

/-- Look a parameter up by name in one module's leaf list. -/
def findParam (leaves : List (String × Tensor)) (n : String) : Tensor :=
  ((leaves.filter fun l => l.1 = n).headD (n, Tensor.mk [] [])).2

/-- `x @ w + b` on tensors: `x : [batch, din]`, `w : [din, dout]`,
`b : [dout]` (row-major flat data). -/
def matmulAdd (x w b : Tensor) : Tensor :=
  let din := w.shape.headD 0
  let dout := w.shape.getLastD 0
  let rows := chunkRows x.data din
  let outRows := rows.map fun r =>
    (List.range dout).map fun j =>
      (((List.range din).map fun k => r.getD k 0 * w.data.getD (k * dout + j) 0).sum)
        + b.data.getD j 0
  Tensor.mk [rows.length, dout] outRows.flatten

/-- One `hk.Linear` layer of an MLP, run from its parameter leaves. -/
def layerForward (leaves : List (String × Tensor)) (x : Tensor) : Tensor :=
  matmulAdd x (findParam leaves "w") (findParam leaves "b")

/-- Apply `relu` to every entry of a tensor. -/
def reluT (t : Tensor) : Tensor := Tensor.mk t.shape (t.data.map relu)

/-- `hk.nets.MLP` forward pass from a parameter tree: ReLU between layers,
none after the last. -/
def mlpApplyGo : List (List (String × Tensor)) → Tensor → Tensor
  | [], x => x
  | [leaves], x => layerForward leaves x
  | leaves :: l2 :: ls, x => mlpApplyGo (l2 :: ls) (reluT (layerForward leaves x))

/-- `hk.nets.MLP` forward pass from a full parameter tree. -/
def mlpApplyParams (params : Params) (x : Tensor) : Tensor :=
  mlpApplyGo (params.map Prod.snd) x

/-- The parameter tree of `hk.nets.MLP output_sizes` on inputs with
`inDim` features: layer `i` holds `w : [d_i, sizes_i]` and
`b : [sizes_i]`, with values from the oracles. -/
def mlpInit (sizes : List Nat) (inDim : Nat) (wOr : Nat → Nat → ℝ)
    (bOr : Nat → Nat → ℝ) : Params :=
  (List.range sizes.length).map fun i =>
    let din := (inDim :: sizes).getD i 0
    let dout := sizes.getD i 0
    ("linear_" ++ toString i,
      [("w", Tensor.mk [din, dout] ((List.range (din * dout)).map (wOr i))),
       ("b", Tensor.mk [dout] ((List.range dout).map (bOr i)))])

/-- `hk.without_apply_rng (hk.transform (hk.nets.MLP output_sizes))`:
`init` draws the layer parameters for the dummy input's feature dimension
from key-dependent oracles, `apply` runs the MLP. -/
def mlpTransformed (sizes : List Nat) (wOr : Nat → Nat → Nat → ℝ)
    (bOr : Nat → Nat → Nat → ℝ) : Transformed :=
  { init := fun key dummy => mlpInit sizes (dummy.shape.getLastD 0) (wOr key) (bOr key)
    apply := fun params x => mlpApplyParams params x }

/-- Divide every entry of a tensor by `τ`. -/
noncomputable def divT (t : Tensor) (τ : ℝ) : Tensor := Tensor.mk t.shape (t.data.map fun a => a / τ)

/-- `net_out /= problem_temperature` guarded by Python truthiness:
`none` models both `None` and a falsy (zero) temperature. -/
noncomputable def withTempT (temp : Option ℝ) (t : Tensor) : Tensor :=
  match temp with
  | none => t
  | some τ => divT t τ

/-- Wrap a transformed network with the optional temperature division
applied to its output (`base_net` of
`MLPHypermodelPriorIndependentLayers`). -/
noncomputable def withTemperature (temp : Option ℝ) (tb : Transformed) : Transformed :=
  { init := tb.init
    apply := fun params x => withTempT temp (tb.apply params x) }

/-- Euclidean norm of a flat vector (`jnp.linalg.norm` along the last axis). -/
noncomputable def vnorm (v : List ℝ) : ℝ := Real.sqrt ((v.map fun a => a * a).sum)

/-- `HyperLinear.__call__` on a batch of rows: parameters
`w : [outSize, hidden, idim]` and `b : [outSize, idim]` are drawn from the
value oracles, normalized along the index axis, rescaled, contracted with
the (per-layer) index `z`, and applied as a linear map plus bias. -/
noncomputable def hyperLinearRows (outSize idim : Nat) (wS bS fixedB : ℝ)
    (wv : Nat → Nat → Nat → ℝ) (bv : Nat → Nat → ℝ)
    (x : List (List ℝ)) (z : List ℝ) : List (List ℝ) :=
  let hidden := (x.headD []).length
  let wsc := fun o h =>
    let r := (List.range idim).map (wv o h)
    (r.map fun a => a / vnorm r).map fun a => a * Real.sqrt (wS / (hidden : ℝ))
  let bsc := fun o =>
    let r := (List.range idim).map (bv o)
    r.map fun a => a / vnorm r * Real.sqrt bS + fixedB
  let weights := fun o h => dot (wsc o h) z
  let bias := fun o => dot (bsc o) z
  x.map fun xr =>
    (List.range outSize).map fun o =>
      (((List.range hidden).map fun h => weights o h * xr.getD h 0).sum) + bias o

/-- Helper for `jnp.array_split`: emit `k` chunks, the first `r` of size
`q + 1` and the rest of size `q`. -/
def arraySplitGo {α : Type} : List α → Nat → Nat → Nat → List (List α)
  | _, _, _, 0 => []
  | l, q, 0, k + 1 => l.take q :: arraySplitGo (l.drop q) q 0 k
  | l, q, r + 1, k + 1 => l.take (q + 1) :: arraySplitGo (l.drop (q + 1)) q r k

/-- `jnp.array_split l k`: `k` chunks whose sizes differ by at most one,
the first `l.length % k` chunks having the extra element. -/
def arraySplit {α : Type} (l : List α) (k : Nat) : List (List α) :=
  if k = 0 then [] else arraySplitGo l (l.length / k) (l.length % k) k

/-- `self._layers_indices` of `PriorMLPIndependentLayers.__init__`: all
index positions for every layer when `index_dim < num_layers`, otherwise
`jnp.array_split (jnp.arange index_dim) num_layers`. -/
def layersIndices (indexDim numLayers : Nat) : List (List Nat) :=
  if indexDim < numLayers then List.replicate numLayers (List.range indexDim)
  else arraySplit (List.range indexDim) numLayers

/-- `index_layers` of `PriorMLPIndependentLayers.__call__`: the whole `z`
for every layer when `index_dim < num_layers`, otherwise
`jnp.array_split z num_layers`. -/
def indexLayers (indexDim numLayers : Nat) (z : List ℝ) : List (List ℝ) :=
  if indexDim < numLayers then List.replicate numLayers z
  else arraySplit z numLayers

/-- The haiku parameter store of a `PriorMLPIndependentLayers` module:
per-layer `HyperLinear` value oracles (layer index first). -/
structure PriorStore where
  wv : Nat → Nat → Nat → Nat → ℝ
  bv : Nat → Nat → Nat → ℝ

/-- The layer loop of `PriorMLPIndependentLayers.__call__`: run each
`HyperLinear` on its own index chunk, with ReLU between layers. -/
noncomputable def priorRowsGo (wS bS fixedB : ℝ) (wv : Nat → Nat → Nat → Nat → ℝ)
    (bv : Nat → Nat → Nat → ℝ) :
    Nat → List (Nat × List ℝ) → List (List ℝ) → List (List ℝ)
  | _, [], x => x
  | li, [(o, zc)], x => hyperLinearRows o zc.length wS bS fixedB (wv li) (bv li) x zc
  | li, (o, zc) :: p2 :: ps, x =>
    priorRowsGo wS bS fixedB wv bv (li + 1) (p2 :: ps)
      ((hyperLinearRows o zc.length wS bS fixedB (wv li) (bv li) x zc).map fun r =>
        r.map relu)

/-- `PriorMLPIndependentLayers.__call__` on a batch of rows: pair each
layer's output size with its index chunk and run the layer loop. -/
noncomputable def priorMLPRows (outputSizes : List Nat) (indexDim : Nat)
    (wS bS fixedB : ℝ) (s : PriorStore) (x : List (List ℝ)) (z : List ℝ) :
    List (List ℝ) :=
  priorRowsGo wS bS fixedB s.wv s.bv 0
    (outputSizes.zip (indexLayers indexDim outputSizes.length z)) x

/-- `PriorMLPIndependentLayers.__call__` on a tensor `x : [batch, features]`. -/
noncomputable def priorMLPCallT (outputSizes : List Nat) (indexDim : Nat)
    (wS bS fixedB : ℝ) (s : PriorStore) (x : Tensor) (z : List ℝ) : Tensor :=
  let rows := chunkRows x.data (x.shape.getLastD 0)
  let outRows := priorMLPRows outputSizes indexDim wS bS fixedB s rows z
  Tensor.mk [outRows.length, (outRows.headD []).length] outRows.flatten

/-- Modelled from the spec: elementwise sum of two same-shaped outputs,
used by the additive prior composition (`enn/networks/priors.py` is not
under `src/`). -/
def addT (a b : Tensor) : Tensor :=
  Tensor.mk a.shape (List.zipWith (fun u v => u + v) a.data b.data)

/-- Modelled from the spec: scaling of the prior output by `prior_scale`
(`enn/networks/priors.py` is not under `src/`). -/
def smulT (c : ℝ) (t : Tensor) : Tensor :=
  Tensor.mk t.shape (t.data.map fun a => c * a)

/-- Modelled from the spec: `priors.EnnWithAdditivePrior` — the composed
apply returns the primary network's output plus `prior_scale` times the
prior function's output (`enn/networks/priors.py` is not under `src/`;
the spec says the prior composer "additively combines its output with the
primary network's output"). -/
def ennWithAdditivePrior (applyP : HyperStore → Tensor → List ℝ → Option Tensor)
    (priorF : Tensor → List ℝ → Option Tensor) (priorScale : ℝ) :
    HyperStore → Tensor → List ℝ → Option Tensor :=
  fun s x z =>
    (applyP s x z).bind fun a => (priorF x z).map fun p => addT a (smulT priorScale p)

/-- Modelled from the spec: `priors.convert_enn_to_prior_fn` — initialize
the given epistemic network once from the key and dummy input and return
a function forwarding it with those frozen parameters
(`enn/networks/priors.py` is not under `src/`; the spec says prior
network parameters are "fixed once at construction"). -/
def convertEnnToPriorFn (enn : ENNH) (dummy : Tensor) (key : Nat) :
    Tensor → List ℝ → Option Tensor :=
  fun x z => enn.apply (enn.init key dummy (enn.indexer key)) x z

/-- The primary hypermodel of `MLPHypermodelWithHypermodelPrior`: an
`MLPHypermodel` over the transformed base MLP. -/
noncomputable def withHMPriorPrimary (baseOutputSizes : List Nat) (dummy : Tensor)
    (indexer : Nat → List ℝ) (hyperHidden : Option (List Nat)) (scale : Bool)
    (baseWOr baseBOr : Nat → Nat → Nat → ℝ) (hyperOracle : Nat → HyperStore) : ENNH :=
  mkMLPHypermodel (mlpTransformed baseOutputSizes baseWOr baseBOr) dummy indexer
    hyperHidden scale hyperOracle

/-- The prior hypermodel ENN of `MLPHypermodelWithHypermodelPrior`: an
`MLPHypermodel` over the transformed prior base MLP. -/
noncomputable def withHMPriorPriorEnn (dummy : Tensor) (indexer : Nat → List ℝ)
    (priorBaseOutputSizes : List Nat) (priorHyperHidden : Option (List Nat))
    (scale : Bool) (priorBaseWOr priorBaseBOr : Nat → Nat → Nat → ℝ)
    (priorHyperOracle : Nat → HyperStore) : ENNH :=
  mkMLPHypermodel (mlpTransformed priorBaseOutputSizes priorBaseWOr priorBaseBOr)
    dummy indexer priorHyperHidden scale priorHyperOracle

/-- The frozen prior function of `MLPHypermodelWithHypermodelPrior`:
`priors.convert_enn_to_prior_fn(prior_enn, dummy_input, PRNGKey(seed))`. -/
noncomputable def withHMPriorFn (dummy : Tensor) (indexer : Nat → List ℝ)
    (priorBaseOutputSizes : List Nat) (priorHyperHidden : Option (List Nat))
    (scale : Bool) (priorBaseWOr priorBaseBOr : Nat → Nat → Nat → ℝ)
    (priorHyperOracle : Nat → HyperStore) (seed : Nat) :
    Tensor → List ℝ → Option Tensor :=
  convertEnnToPriorFn
    (withHMPriorPriorEnn dummy indexer priorBaseOutputSizes priorHyperHidden scale
      priorBaseWOr priorBaseBOr priorHyperOracle)
    dummy seed

/-- `MLPHypermodelWithHypermodelPrior.__init__`: the primary hypermodel
ENN composed with the frozen prior hypermodel via the additive prior. -/
noncomputable def mkMLPHypermodelWithHypermodelPrior (baseOutputSizes : List Nat)
    (priorScale : ℝ) (dummy : Tensor) (indexer : Nat → List ℝ)
    (priorBaseOutputSizes : List Nat) (hyperHidden priorHyperHidden : Option (List Nat))
    (seed : Nat) (scale : Bool) (baseWOr baseBOr priorBaseWOr priorBaseBOr : Nat → Nat → Nat → ℝ)
    (hyperOracle priorHyperOracle : Nat → HyperStore) : ENNH :=
  { apply := ennWithAdditivePrior
      (withHMPriorPrimary baseOutputSizes dummy indexer hyperHidden scale
        baseWOr baseBOr hyperOracle).apply
      (withHMPriorFn dummy indexer priorBaseOutputSizes priorHyperHidden scale
        priorBaseWOr priorBaseBOr priorHyperOracle seed)
      priorScale
    init := (withHMPriorPrimary baseOutputSizes dummy indexer hyperHidden scale
        baseWOr baseBOr hyperOracle).init
    indexer := indexer }

/-- The primary hypermodel of `MLPHypermodelPriorIndependentLayers`: an
`MLPHypermodel` over the temperature-wrapped transformed base MLP. -/
noncomputable def indepPrimary (baseOutputSizes : List Nat) (dummy : Tensor)
    (indexer : Nat → List ℝ) (hyperHidden : Option (List Nat)) (scale : Bool)
    (temp : Option ℝ) (baseWOr baseBOr : Nat → Nat → Nat → ℝ)
    (hyperOracle : Nat → HyperStore) : ENNH :=
  mkMLPHypermodel (withTemperature temp (mlpTransformed baseOutputSizes baseWOr baseBOr))
    dummy indexer hyperHidden scale hyperOracle

/-- The frozen prior function of `MLPHypermodelPriorIndependentLayers`:
the index dimension is read off `indexer` at the seed-derived key, the
`PriorMLPIndependentLayers` parameters are initialized once at the
seed-derived key, and every call forwards with those parameters. -/
noncomputable def indepPriorFn (priorBaseOutputSizes : List Nat)
    (indexer : Nat → List ℝ) (pWS pBS pFB : ℝ) (temp : Option ℝ) (seed : Nat)
    (priorOracle : Nat → PriorStore) : Tensor → List ℝ → Option Tensor :=
  let index := indexer seed
  let indexDim := index.length
  let priorParams := priorOracle seed
  fun x z =>
    some (withTempT temp
      (priorMLPCallT priorBaseOutputSizes indexDim pWS pBS pFB priorParams x z))

/-- `MLPHypermodelPriorIndependentLayers.__init__`: the primary hypermodel
ENN composed with the frozen independent-layers prior via the additive
prior. -/
noncomputable def mkMLPHypermodelPriorIndependentLayers (baseOutputSizes : List Nat)
    (priorScale : ℝ) (dummy : Tensor) (indexer : Nat → List ℝ)
    (priorBaseOutputSizes : List Nat) (hyperHidden : Option (List Nat))
    (pWS pBS pFB : ℝ) (seed : Nat) (scale : Bool) (temp : Option ℝ)
    (baseWOr baseBOr : Nat → Nat → Nat → ℝ) (hyperOracle : Nat → HyperStore)
    (priorOracle : Nat → PriorStore) : ENNH :=
  { apply := ennWithAdditivePrior
      (indepPrimary baseOutputSizes dummy indexer hyperHidden scale temp
        baseWOr baseBOr hyperOracle).apply
      (indepPriorFn priorBaseOutputSizes indexer pWS pBS pFB temp seed priorOracle)
      priorScale
    init := (indepPrimary baseOutputSizes dummy indexer hyperHidden scale temp
        baseWOr baseBOr hyperOracle).init
    indexer := indexer }

/-! Concrete fixtures used by witness theorems. -/

/-- A tiny concrete parameter tree: one module, a `[2, 1]` weight and a
`[1]` bias. -/
def paramsFix : Params :=
  [("linear_0", [("w", Tensor.mk [2, 1] [0, 0]), ("b", Tensor.mk [1] [0])])]

/-- A concrete dummy input. -/
def dummyFix : Tensor := Tensor.mk [1, 2] [0, 0]

/-- A transformed base whose `init` is constant. -/
def tbConstFix : Transformed := Transformed.mk (fun _ _ => paramsFix) (fun _ x => x)

/-- A transformed base agreeing with `tbConstFix` at key 0 only. -/
def tbKeyedFix : Transformed :=
  Transformed.mk (fun k _ => if k = 0 then paramsFix else []) (fun _ x => x)

/-- An all-zero hypermodel parameter store. -/
def storeFix : HyperStore :=
  HyperStore.mk [] (fun _ _ _ _ => 0) (fun _ _ _ => 0) (fun _ => 0) (fun _ => 0)

/-- An all-one hypermodel parameter store. -/
def storeFix1 : HyperStore :=
  HyperStore.mk [] (fun _ _ _ _ => 1) (fun _ _ _ => 1) (fun _ => 1) (fun _ => 1)

/-- An all-zero prior-module parameter store. -/
def pstoreFix : PriorStore := PriorStore.mk (fun _ _ _ _ => 0) (fun _ _ _ => 0)

/-- An all-one prior-module parameter store. -/
def pstoreFix1 : PriorStore := PriorStore.mk (fun _ _ _ _ => 1) (fun _ _ _ => 1)

/-! Structural lemmas about the reshape stage. -/

theorem reshape_shape {xs : List ℝ} {sh : List Nat} {u : Tensor}
    (h : reshape xs sh = some u) : u.shape = sh := by
  unfold reshape at h
  split at h
  · cases h
    rfl
  · cases h

theorem reshapeLeaves_shapes :
    ∀ (fs : List (String × Option (List ℝ))) (bs ms : List (String × Tensor)),
      reshapeLeaves fs bs = some ms →
      ms.map (fun l => (l.1, l.2.shape)) = bs.map (fun l => (l.1, l.2.shape)) := by
  intro fs
  induction fs with
  | nil =>
    intro bs ms h
    cases bs with
    | nil => cases h; simp
    | cons b bs => cases h
  | cons f fs ih =>
    intro bs ms h
    cases bs with
    | nil => cases h
    | cons b bs =>
      obtain ⟨nf, o⟩ := f
      obtain ⟨n, t⟩ := b
      simp only [reshapeLeaves] at h
      cases ho : o.bind fun xs => reshape xs t.shape with
      | none => rw [ho] at h; cases h
      | some u =>
        rw [ho] at h
        cases hr : reshapeLeaves fs bs with
        | none => rw [hr] at h; cases h
        | some r =>
          rw [hr] at h
          cases h
          have hu : u.shape = t.shape := by
            cases o with
            | none => cases ho
            | some xs =>
              simp only [Option.bind] at ho
              exact reshape_shape ho
          simpa [hu] using ih bs r hr

theorem reshapeAll_shapes :
    ∀ (ft : PTree (Option (List ℝ))) (bt gp : Params),
      reshapeAll ft bt = some gp →
      mapT Tensor.shape gp = mapT Tensor.shape bt := by
  intro ft
  induction ft with
  | nil =>
    intro bt gp h
    cases bt with
    | nil => cases h; rfl
    | cons b bt => cases h
  | cons f ft ih =>
    intro bt gp h
    cases bt with
    | nil => cases h
    | cons b bt =>
      obtain ⟨mf, fs⟩ := f
      obtain ⟨m, bs⟩ := b
      simp only [reshapeAll] at h
      cases hl : reshapeLeaves fs bs with
      | none => rw [hl] at h; cases h
      | some ms =>
        rw [hl] at h
        cases hr : reshapeAll ft bt with
        | none => rw [hr] at h; cases h
        | some r =>
          rw [hr] at h
          cases h
          have h1 := reshapeLeaves_shapes fs bs ms hl
          have h2 := ih bt r hr
          simp only [mapT, List.map] at h2 ⊢
          exact congrArg₂ (fun a b => (m, a) :: b) h1 h2

/-- C1: every parameter tree accepted (produced) by the generation stage of
`hyper_fn` has exactly the tree structure and per-leaf shapes of the base
network's parameter tree from construction, and `hyper_fn` feeds exactly
the (optionally scaled) generated tree to `transformed_base.apply`. -/
theorem scale_fn_preserves_shape (m n : String) (t : Tensor) :
    (scale_fn m n t).shape = t.shape := by
  unfold scale_fn
  split <;> rfl

theorem mapNamedT_preserves_shapeTree (f : String → String → Tensor → Tensor)
    (hf : ∀ m n t, (f m n t).shape = t.shape) (gp : Params) :
    mapT Tensor.shape (mapNamedT f gp) = mapT Tensor.shape gp := by
  unfold mapT mapNamedT
  simp only [List.map_map]
  refine List.map_congr_left fun mo _ => ?_
  simp only [Function.comp]
  refine congrArg (fun v => (mo.1, v)) ?_
  simp only [List.map_map]
  exact List.map_congr_left fun l _ => congrArg (fun v => (l.1, v)) (hf mo.1 l.1 l.2)

theorem generated_params_match_base_shapes (tb : Transformed) (dummy : Tensor)
    (torso : List ℝ → List ℝ) (diag scale : Bool) (s : HyperStore)
    (x : Tensor) (index : List ℝ) :
    ((hyperGenerated tb dummy torso diag s index).map (mapT Tensor.shape)
      = (hyperGenerated tb dummy torso diag s index).map
          fun _ => mapT Tensor.shape (tb.init 0 dummy))
    ∧ (∀ (gp : Params) (sc : Bool),
        mapT Tensor.shape (hyperScaledParams sc gp) = mapT Tensor.shape gp)
    ∧ hyperFn tb dummy torso diag scale s x index
      = (hyperGenerated tb dummy torso diag s index).map
          fun gp => tb.apply (hyperScaledParams scale gp) x := by
  refine ⟨?_, ?_, rfl⟩
  case refine_2 =>
    intro gp sc
    cases sc
    · rfl
    · exact mapNamedT_preserves_shapeTree scale_fn scale_fn_preserves_shape gp
  cases h : hyperGenerated tb dummy torso diag s index with
  | none => rfl
  | some gp =>
    have hgen : mapT Tensor.shape gp = mapT Tensor.shape (tb.init 0 dummy) := by
      simp only [hyperGenerated] at h
      by_cases hd : diag
      · rw [if_pos hd] at h
        by_cases hlen :
            index.length = (leavesT (mapT (fun t => t.data.length) (tb.init 0 dummy))).sum
        · rw [if_pos hlen] at h
          exact reshapeAll_shapes _ _ _ h
        · rw [if_neg hlen] at h
          cases h
      · rw [if_neg hd] at h
        exact reshapeAll_shapes _ _ _ h
    simp [hgen]

/-- C6: the generation stage depends on the base network only through the
single construction-time initialization `transformed_base.init (PRNGKey 0)
dummy_input`; two bases agreeing there generate identically for every
index, so the shapes fixed at construction are never recomputed. -/
theorem base_shapes_fixed_at_construction (tb tb2 : Transformed) (dummy : Tensor)
    (h : tb.init 0 dummy = tb2.init 0 dummy) :
    ∀ (torso : List ℝ → List ℝ) (diag : Bool) (s : HyperStore) (index : List ℝ),
      hyperGenerated tb dummy torso diag s index
        = hyperGenerated tb2 dummy torso diag s index := by
  intro torso diag s index
  simp only [hyperGenerated, h]

/-- Witness for C6 at a concrete pair of bases agreeing at key 0. -/
theorem base_shapes_fixed_at_construction_witness :
    tbConstFix.init 0 dummyFix = tbKeyedFix.init 0 dummyFix
    ∧ hyperGenerated tbConstFix dummyFix (fun v => v) false storeFix [0]
        = hyperGenerated tbKeyedFix dummyFix (fun v => v) false storeFix [0] := by
  have h : tbConstFix.init 0 dummyFix = tbKeyedFix.init 0 dummyFix := by
    simp [tbConstFix, tbKeyedFix]
  exact ⟨h, base_shapes_fixed_at_construction tbConstFix tbKeyedFix dummyFix h
    (fun v => v) false storeFix [0]⟩

/-- C7: with `hidden_sizes = None` the torso is the identity, the
generation stage applies one per-leaf `hk.Linear` directly to the raw
index, each per-leaf linear output having exactly the leaf's flattened
length; and `MLPHypermodel` built with `hidden = none` runs `hyper_fn`
with the identity torso. -/
theorem identity_torso_linear_hypermodel (tb : Transformed) (dummy : Tensor)
    (ls : List Linear) (s : HyperStore) (indexer : Nat → List ℝ) (scale : Bool)
    (io : Nat → HyperStore) (x : Tensor) (index : List ℝ) :
    mlpHypermodelTorso none ls = (fun v => v)
    ∧ hyperGenerated tb dummy (mlpHypermodelTorso none ls) false s index
      = reshapeAll
          (mapNamedT (fun m n t =>
              some ((mkLinear index.length t.data.length (s.wv m n) (s.bv m n)).apply
                index))
            (tb.init 0 dummy))
          (tb.init 0 dummy)
    ∧ (∀ (i o : Nat) (wv : Nat → Nat → ℝ) (bv : Nat → ℝ),
        ((mkLinear i o wv bv).apply index).length = o)
    ∧ (mkMLPHypermodel tb dummy indexer none scale io).apply s x index
      = hyperFn tb dummy (fun v => v) false scale s x index := by
  refine ⟨rfl, rfl, ?_, rfl⟩
  intro i o wv bv
  simp [mkLinear, Linear.apply]

/-- C2: `scale_fn` divides a weight tensor (name `'w'`) elementwise by the
square root of its first dimension and returns any other parameter
unchanged; `hyper_fn` applies it to every generated leaf exactly when
scaling is enabled. -/
theorem scale_fn_divides_weights (m : String) (d : Nat) (rest : List Nat)
    (data : List ℝ) :
    scale_fn m "w" (Tensor.mk (d :: rest) data)
      = Tensor.mk (d :: rest) (data.map fun a => a / Real.sqrt ((d : Nat) : ℝ))
    ∧ (∀ (n : String) (t : Tensor), n ≠ "w" → scale_fn m n t = t)
    ∧ (∀ gp : Params, hyperScaledParams true gp = mapNamedT scale_fn gp)
    ∧ (∀ gp : Params, hyperScaledParams false gp = gp) := by
  refine ⟨by simp [scale_fn], ?_, fun gp => rfl, fun gp => rfl⟩
  intro n t hn
  simp [scale_fn, hn]

/-- Witness for C2 at a concrete weight and a concrete bias tensor. -/
theorem scale_fn_divides_weights_witness :
    ("b" : String) ≠ "w"
    ∧ scale_fn "linear_0" "b" (Tensor.mk [2] [1, 2]) = Tensor.mk [2] [1, 2]
    ∧ scale_fn "linear_0" "w" (Tensor.mk [2] [1, 2])
      = Tensor.mk [2] (([1, 2] : List ℝ).map fun a => a / Real.sqrt ((2 : Nat) : ℝ)) := by
  refine ⟨by decide, ?_, (scale_fn_divides_weights "linear_0" 2 [] [1, 2]).1⟩
  exact (scale_fn_divides_weights "linear_0" 2 [] [1, 2]).2.1 "b" _ (by decide)

/-- C8: `DiagonalLinear.__call__` fails exactly on scalar (empty-shape)
inputs, with the `ValueError` message from the source, and on success
returns a tensor of the same shape and element count as the input. -/
theorem diagonal_linear_scalar_guard (wb : Bool) (wv bv : Nat → ℝ)
    (inputs : Tensor) :
    ((diagCall wb wv bv inputs).isOk = !inputs.shape.isEmpty)
    ∧ ((diagCall wb wv bv inputs).map Tensor.shape
        = (diagCall wb wv bv inputs).map fun _ => inputs.shape)
    ∧ ((diagCall wb wv bv inputs).map (fun t => t.data.length)
        = (diagCall wb wv bv inputs).map fun _ => inputs.data.length)
    ∧ ∀ d : List ℝ,
        diagCall wb wv bv (Tensor.mk [] d) = Except.error "Input must not be scalar." := by
  by_cases hs : inputs.shape = []
  · refine ⟨?_, ?_, ?_, fun d => by simp [diagCall]⟩ <;>
      simp [diagCall, hs, Except.isOk, Except.toBool, Except.map]
  · refine ⟨?_, ?_, ?_, fun d => by simp [diagCall]⟩ <;>
      cases wb <;>
        simp [diagCall, hs, Except.isOk, Except.toBool, Except.map, List.isEmpty_iff]

/-- C9: the per-coordinate multiplier of `DiagonalLinear` is
`softplus w = log (1 + exp w)`, strictly positive for every weight, so for
fixed parameters each output coordinate is strictly increasing in the
corresponding input coordinate; on a one-coordinate input the module
computes exactly `x * softplus w + b`. -/
theorem softplus_positive_strictly_increasing (w b x y : ℝ) (wv bv : Nat → ℝ)
    (h : x < y) :
    0 < softplus w
    ∧ x * softplus w + b < y * softplus w + b
    ∧ diagCall true wv bv (Tensor.mk [1] [x])
      = Except.ok (Tensor.mk [1] [x * softplus (wv 0) + bv 0]) := by
  have hpos : 0 < softplus w := by
    unfold softplus
    have h1 : (1 : ℝ) < 1 + Real.exp w := by linarith [Real.exp_pos w]
    exact Real.log_pos h1
  refine ⟨hpos, ?_, ?_⟩
  · have h2 : x * softplus w < y * softplus w := mul_lt_mul_of_pos_right h hpos
    linarith
  · simp [diagCall, List.range_succ]

/-- Witness for C9 at `w = b = x = 0`, `y = 1`. -/
theorem softplus_positive_strictly_increasing_witness :
    (0 : ℝ) < 1
    ∧ (0 < softplus 0
      ∧ 0 * softplus 0 + 0 < 1 * softplus 0 + 0
      ∧ diagCall true (fun _ => 0) (fun _ => 0) (Tensor.mk [1] [0])
        = Except.ok (Tensor.mk [1] [0 * softplus 0 + 0])) :=
  ⟨one_pos,
    softplus_positive_strictly_increasing 0 0 0 1 (fun _ => 0) (fun _ => 0) one_pos⟩

/-! Lemmas about `jnp.array_split`. -/

theorem arraySplitGo_length {α : Type} :
    ∀ (k q r : Nat) (l : List α), (arraySplitGo l q r k).length = k := by
  intro k
  induction k with
  | zero => intro q r l; cases r <;> rfl
  | succ k ih =>
    intro q r l
    cases r with
    | zero => simp [arraySplitGo, ih]
    | succ r => simp [arraySplitGo, ih]

theorem arraySplitGo_flatten {α : Type} :
    ∀ (k q r : Nat) (l : List α), r ≤ k →
      (arraySplitGo l q r k).flatten = l.take (q * k + r) := by
  intro k
  induction k with
  | zero =>
    intro q r l hr
    have h0 : r = 0 := Nat.le_zero.mp hr
    subst h0
    simp [arraySplitGo]
  | succ k ih =>
    intro q r l hr
    cases r with
    | zero =>
      have h2 := ih q 0 (l.drop q) (Nat.zero_le k)
      simp only [arraySplitGo, List.flatten_cons, h2, Nat.add_zero]
      rw [show q * (k + 1) = q + q * k by ring]
      exact (List.take_add l q (q * k)).symm
    | succ r =>
      have h2 := ih q r (l.drop (q + 1)) (Nat.le_of_succ_le_succ hr)
      simp only [arraySplitGo, List.flatten_cons, h2]
      rw [show q * (k + 1) + (r + 1) = (q + 1) + (q * k + r) by ring]
      exact (List.take_add l (q + 1) (q * k + r)).symm

theorem arraySplit_flatten {α : Type} (l : List α) (k : Nat) (hk : 0 < k) :
    (arraySplit l k).flatten = l := by
  unfold arraySplit
  rw [if_neg (Nat.pos_iff_ne_zero.mp hk)]
  rw [arraySplitGo_flatten k (l.length / k) (l.length % k) l
    (Nat.le_of_lt (Nat.mod_lt _ hk))]
  rw [show l.length / k * k + l.length % k = l.length by
    rw [Nat.mul_comm]
    exact Nat.div_add_mod l.length k]
  exact List.take_length l

theorem arraySplit_length {α : Type} (l : List α) (k : Nat) (hk : 0 < k) :
    (arraySplit l k).length = k := by
  unfold arraySplit
  rw [if_neg (Nat.pos_iff_ne_zero.mp hk)]
  exact arraySplitGo_length k _ _ l

/-- C4 (amended): when `index_dim >= num_layers`, the per-layer index
assignments of `PriorMLPIndependentLayers` are pairwise disjoint slices of
the index positions — one slice per layer, together covering all
positions — and `__call__` pairs layer `i` with exactly the `i`-th
`array_split` chunk of `z`. -/
theorem per_layer_index_slices_disjoint (indexDim numLayers : Nat)
    (h1 : 0 < numLayers) (h2 : numLayers ≤ indexDim) :
    (layersIndices indexDim numLayers).Pairwise List.Disjoint
    ∧ (layersIndices indexDim numLayers).flatten = List.range indexDim
    ∧ (layersIndices indexDim numLayers).length = numLayers
    ∧ (∀ z : List ℝ, indexLayers indexDim numLayers z = arraySplit z numLayers)
    ∧ (∀ (outputSizes : List Nat) (wS bS fB : ℝ) (s : PriorStore)
        (x : List (List ℝ)) (z : List ℝ), outputSizes.length = numLayers →
        priorMLPRows outputSizes indexDim wS bS fB s x z
          = priorRowsGo wS bS fB s.wv s.bv 0
              (outputSizes.zip (arraySplit z numLayers)) x) := by
  have hn : ¬ indexDim < numLayers := not_lt.mpr h2
  have hli : layersIndices indexDim numLayers
      = arraySplit (List.range indexDim) numLayers := by
    simp [layersIndices, hn]
  have hfl : (layersIndices indexDim numLayers).flatten = List.range indexDim := by
    rw [hli]
    exact arraySplit_flatten _ _ h1
  refine ⟨?_, hfl, ?_, ?_, ?_⟩
  · have hnd : (layersIndices indexDim numLayers).flatten.Nodup := by
      rw [hfl]
      exact List.nodup_range indexDim
    exact (List.nodup_flatten.mp hnd).2
  · rw [hli]
    simpa using arraySplit_length (List.range indexDim) numLayers h1
  · intro z
    simp [indexLayers, hn]
  · intro outputSizes wS bS fB s x z hlen
    simp [priorMLPRows, indexLayers, hlen, hn]

/-- Witness for C4 (amended) at `index_dim = 2`, two layers. -/
theorem per_layer_index_slices_disjoint_witness :
    0 < 2 ∧ (2 : Nat) ≤ 2
    ∧ (layersIndices 2 2).Pairwise List.Disjoint
    ∧ (layersIndices 2 2).flatten = List.range 2
    ∧ indexLayers 2 2 [(0 : ℝ), 1] = arraySplit [(0 : ℝ), 1] 2
    ∧ priorMLPRows [1, 1] 2 1 1 0 pstoreFix [[0]] [(0 : ℝ), 1]
      = priorRowsGo 1 1 0 pstoreFix.wv pstoreFix.bv 0
          ([1, 1].zip (arraySplit [(0 : ℝ), 1] 2)) [[0]] := by
  have h := per_layer_index_slices_disjoint 2 2 (by decide) (by decide)
  exact ⟨by decide, by decide, h.1, h.2.1,
    h.2.2.2.1 [0, 1],
    h.2.2.2.2 [1, 1] 1 1 0 pstoreFix [[0]] [0, 1] (by decide)⟩

/-- Counterexample for C4 as stated: with `index_dim = 1` and two layers
the code assigns the whole index to both layers, so an index coordinate is
shared between two different layers. -/
theorem per_layer_index_slices_shared_counterexample :
    layersIndices 1 2 = [[0], [0]]
    ∧ ¬ (layersIndices 1 2).Pairwise List.Disjoint := by
  have he : layersIndices 1 2 = [[0], [0]] := by decide
  refine ⟨he, ?_⟩
  rw [he]
  intro hp
  have hd := (List.pairwise_cons.mp hp).1 [0] (by simp)
  exact hd (List.mem_singleton.mpr rfl) (List.mem_singleton.mpr rfl)

/-- C10: when `index_dim < num_layers` every layer receives the whole
index vector `z` unsliced (and every layer is assigned all index
positions); the `array_split` into chunks happens exactly when
`index_dim >= num_layers`. -/
theorem whole_index_when_dim_small (indexDim numLayers : Nat) (z : List ℝ) :
    (indexDim < numLayers →
      indexLayers indexDim numLayers z = List.replicate numLayers z
      ∧ layersIndices indexDim numLayers
        = List.replicate numLayers (List.range indexDim))
    ∧ (numLayers ≤ indexDim →
      indexLayers indexDim numLayers z = arraySplit z numLayers
      ∧ layersIndices indexDim numLayers
        = arraySplit (List.range indexDim) numLayers) := by
  constructor
  · intro h
    exact ⟨by simp [indexLayers, h], by simp [layersIndices, h]⟩
  · intro h
    have hn : ¬ indexDim < numLayers := not_lt.mpr h
    exact ⟨by simp [indexLayers, hn], by simp [layersIndices, hn]⟩

/-- Witness for C10: the replicate branch at `index_dim = 1 < 2 = layers`
and the split branch at `index_dim = 2 >= 1 = layers`. -/
theorem whole_index_when_dim_small_witness :
    (1 < 2 ∧ indexLayers 1 2 [(0 : ℝ)] = List.replicate 2 [(0 : ℝ)])
    ∧ ((1 : Nat) ≤ 2 ∧ indexLayers 2 1 [(0 : ℝ), 1] = arraySplit [(0 : ℝ), 1] 1) := by
  refine ⟨⟨by decide, ?_⟩, ⟨by decide, ?_⟩⟩
  · exact ((whole_index_when_dim_small 1 2 [0]).1 (by decide)).1
  · exact ((whole_index_when_dim_small 2 1 [0, 1]).2 (by decide)).1

/-- C3: both composed networks' apply functions are the additive-prior
composition of the primary hypermodel with the independently constructed
prior function; the composition returns the primary output plus
`prior_scale` times the prior output, elementwise a sum and nothing
else. -/
theorem additive_prior_combination
    (baseOutputSizes : List Nat) (priorScale : ℝ) (dummy : Tensor)
    (indexer : Nat → List ℝ) (priorBaseOutputSizes : List Nat)
    (hyperHidden priorHyperHidden : Option (List Nat)) (seed : Nat) (scale : Bool)
    (baseWOr baseBOr priorBaseWOr priorBaseBOr : Nat → Nat → Nat → ℝ)
    (hyperOracle priorHyperOracle : Nat → HyperStore)
    (pWS pBS pFB : ℝ) (temp : Option ℝ) (priorOracle : Nat → PriorStore) :
    ((mkMLPHypermodelWithHypermodelPrior baseOutputSizes priorScale dummy indexer
        priorBaseOutputSizes hyperHidden priorHyperHidden seed scale
        baseWOr baseBOr priorBaseWOr priorBaseBOr hyperOracle priorHyperOracle).apply
      = ennWithAdditivePrior
          (withHMPriorPrimary baseOutputSizes dummy indexer hyperHidden scale
            baseWOr baseBOr hyperOracle).apply
          (withHMPriorFn dummy indexer priorBaseOutputSizes priorHyperHidden scale
            priorBaseWOr priorBaseBOr priorHyperOracle seed)
          priorScale)
    ∧ ((mkMLPHypermodelPriorIndependentLayers baseOutputSizes priorScale dummy
        indexer priorBaseOutputSizes hyperHidden pWS pBS pFB seed scale temp
        baseWOr baseBOr hyperOracle priorOracle).apply
      = ennWithAdditivePrior
          (indepPrimary baseOutputSizes dummy indexer hyperHidden scale temp
            baseWOr baseBOr hyperOracle).apply
          (indepPriorFn priorBaseOutputSizes indexer pWS pBS pFB temp seed
            priorOracle)
          priorScale)
    ∧ (∀ (ap : HyperStore → Tensor → List ℝ → Option Tensor)
        (pf : Tensor → List ℝ → Option Tensor) (c : ℝ) (s : HyperStore)
        (x : Tensor) (z : List ℝ) (a p : Tensor),
        ap s x z = some a → pf x z = some p →
        ennWithAdditivePrior ap pf c s x z = some (addT a (smulT c p)))
    ∧ (∀ (a p : Tensor) (c : ℝ),
        (addT a (smulT c p)).data
          = List.zipWith (fun u v => u + c * v) a.data p.data) := by
  refine ⟨rfl, rfl, ?_, ?_⟩
  · intro ap pf c s x z a p ha hp
    simp [ennWithAdditivePrior, ha, hp]
  · intro a p c
    simp [addT, smulT, List.zipWith_map_right]

/-- Witness for C3: the additive composition evaluated at concrete
primary and prior outputs. -/
theorem additive_prior_combination_witness :
    ((fun (_ : HyperStore) (_ : Tensor) (_ : List ℝ) =>
        some (Tensor.mk [1] [5])) storeFix dummyFix ([] : List ℝ)
      = some (Tensor.mk [1] [5]))
    ∧ ((fun (_ : Tensor) (_ : List ℝ) =>
        some (Tensor.mk [1] [7])) dummyFix ([] : List ℝ) = some (Tensor.mk [1] [7]))
    ∧ ennWithAdditivePrior (fun _ _ _ => some (Tensor.mk [1] [5]))
        (fun _ _ => some (Tensor.mk [1] [7])) 2 storeFix dummyFix []
      = some (addT (Tensor.mk [1] [5]) (smulT 2 (Tensor.mk [1] [7]))) := by
  refine ⟨rfl, rfl, ?_⟩
  exact (additive_prior_combination [] 2 dummyFix (fun _ => []) [] none none 0 true
      (fun _ _ _ => 0) (fun _ _ _ => 0) (fun _ _ _ => 0) (fun _ _ _ => 0)
      (fun _ => storeFix) (fun _ => storeFix) 1 1 0 none
      (fun _ => pstoreFix)).2.2.1
    (fun _ _ _ => some (Tensor.mk [1] [5])) (fun _ _ => some (Tensor.mk [1] [7]))
    2 storeFix dummyFix [] _ _ rfl rfl

/-- C5: each composed network's prior parameters are drawn exactly once,
at construction, from the seed-derived key: two prior-parameter oracles
agreeing at that key yield identical composed apply functions (so no call
re-samples them), and the composed init functions never consult the prior
oracle at all. -/
theorem prior_params_frozen_at_construction
    (baseOutputSizes : List Nat) (priorScale : ℝ) (dummy : Tensor)
    (indexer : Nat → List ℝ) (priorBaseOutputSizes : List Nat)
    (hyperHidden priorHyperHidden : Option (List Nat)) (seed : Nat) (scale : Bool)
    (baseWOr baseBOr priorBaseWOr priorBaseBOr : Nat → Nat → Nat → ℝ)
    (hyperOracle : Nat → HyperStore) (pWS pBS pFB : ℝ) (temp : Option ℝ)
    (po1 po2 : Nat → HyperStore) (qo1 qo2 : Nat → PriorStore)
    (hp : po1 seed = po2 seed) (hq : qo1 seed = qo2 seed) :
    ((mkMLPHypermodelWithHypermodelPrior baseOutputSizes priorScale dummy indexer
        priorBaseOutputSizes hyperHidden priorHyperHidden seed scale
        baseWOr baseBOr priorBaseWOr priorBaseBOr hyperOracle po1).apply
      = (mkMLPHypermodelWithHypermodelPrior baseOutputSizes priorScale dummy indexer
        priorBaseOutputSizes hyperHidden priorHyperHidden seed scale
        baseWOr baseBOr priorBaseWOr priorBaseBOr hyperOracle po2).apply)
    ∧ ((mkMLPHypermodelPriorIndependentLayers baseOutputSizes priorScale dummy
        indexer priorBaseOutputSizes hyperHidden pWS pBS pFB seed scale temp
        baseWOr baseBOr hyperOracle qo1).apply
      = (mkMLPHypermodelPriorIndependentLayers baseOutputSizes priorScale dummy
        indexer priorBaseOutputSizes hyperHidden pWS pBS pFB seed scale temp
        baseWOr baseBOr hyperOracle qo2).apply)
    ∧ (∀ o o2 : Nat → HyperStore,
        (mkMLPHypermodelWithHypermodelPrior baseOutputSizes priorScale dummy indexer
          priorBaseOutputSizes hyperHidden priorHyperHidden seed scale
          baseWOr baseBOr priorBaseWOr priorBaseBOr hyperOracle o).init
        = (mkMLPHypermodelWithHypermodelPrior baseOutputSizes priorScale dummy indexer
          priorBaseOutputSizes hyperHidden priorHyperHidden seed scale
          baseWOr baseBOr priorBaseWOr priorBaseBOr hyperOracle o2).init)
    ∧ (∀ o o2 : Nat → PriorStore,
        (mkMLPHypermodelPriorIndependentLayers baseOutputSizes priorScale dummy
          indexer priorBaseOutputSizes hyperHidden pWS pBS pFB seed scale temp
          baseWOr baseBOr hyperOracle o).init
        = (mkMLPHypermodelPriorIndependentLayers baseOutputSizes priorScale dummy
          indexer priorBaseOutputSizes hyperHidden pWS pBS pFB seed scale temp
          baseWOr baseBOr hyperOracle o2).init) := by
  refine ⟨?_, ?_, fun o o2 => rfl, fun o o2 => rfl⟩
  · unfold mkMLPHypermodelWithHypermodelPrior withHMPriorFn convertEnnToPriorFn
      withHMPriorPriorEnn mkMLPHypermodel
    simp only [hp]
  · unfold mkMLPHypermodelPriorIndependentLayers indepPriorFn
    simp only [hq]

/-- Witness for C5 at concrete oracles agreeing at the construction key 0
but differing elsewhere. -/
theorem prior_params_frozen_at_construction_witness :
    ((fun _ : Nat => storeFix) 0
      = (fun k : Nat => if k = 0 then storeFix else storeFix1) 0)
    ∧ ((fun _ : Nat => pstoreFix) 0
      = (fun k : Nat => if k = 0 then pstoreFix else pstoreFix1) 0)
    ∧ ((mkMLPHypermodelWithHypermodelPrior [1] 1 dummyFix (fun _ => [0]) [1]
        none none 0 true (fun _ _ _ => 0) (fun _ _ _ => 0) (fun _ _ _ => 0)
        (fun _ _ _ => 0) (fun _ => storeFix) (fun _ => storeFix)).apply
      = (mkMLPHypermodelWithHypermodelPrior [1] 1 dummyFix (fun _ => [0]) [1]
        none none 0 true (fun _ _ _ => 0) (fun _ _ _ => 0) (fun _ _ _ => 0)
        (fun _ _ _ => 0) (fun _ => storeFix)
        (fun k => if k = 0 then storeFix else storeFix1)).apply)
    ∧ ((mkMLPHypermodelPriorIndependentLayers [1] 1 dummyFix (fun _ => [0]) [1]
        none 1 1 0 0 true none (fun _ _ _ => 0) (fun _ _ _ => 0)
        (fun _ => storeFix) (fun _ => pstoreFix)).apply
      = (mkMLPHypermodelPriorIndependentLayers [1] 1 dummyFix (fun _ => [0]) [1]
        none 1 1 0 0 true none (fun _ _ _ => 0) (fun _ _ _ => 0)
        (fun _ => storeFix)
        (fun k => if k = 0 then pstoreFix else pstoreFix1)).apply) := by
  have hp : (fun _ : Nat => storeFix) 0
      = (fun k : Nat => if k = 0 then storeFix else storeFix1) 0 := by simp
  have hq : (fun _ : Nat => pstoreFix) 0
      = (fun k : Nat => if k = 0 then pstoreFix else pstoreFix1) 0 := by simp
  have h := prior_params_frozen_at_construction [1] 1 dummyFix (fun _ => [0]) [1]
    none none 0 true (fun _ _ _ => 0) (fun _ _ _ => 0) (fun _ _ _ => 0)
    (fun _ _ _ => 0) (fun _ => storeFix) 1 1 0 none
    (fun _ => storeFix) (fun k => if k = 0 then storeFix else storeFix1)
    (fun _ => pstoreFix) (fun k => if k = 0 then pstoreFix else pstoreFix1) hp hq
  exact ⟨hp, hq, h.1, h.2.1⟩

end Hyper
